import Mathlib

/-
Verification development for the MyMinecraftManager process-supervision
core.  The JavaScript sources are shallowly embedded: the ProcessManager
class (ProcessManager.js), the supervisor-based server (server.js using
ProcessManager) and the legacy inline server are translated to pure Lean
functions over explicit state records.  OS-level nondeterminism (spawn
results, process liveness, whether the child exits inside the grace
window) is passed in as explicit oracle parameters.  JavaScript-specific
semantics that matter (truthiness of `pid` fields, strict inequality
between a boolean and `null`, object-key update order) are modelled
explicitly.
-/

namespace MMM

/-- Value of a JavaScript truthiness-carrying expression such as
`inst.pid && isPidRunning(inst.pid)`: it is `null`, a number, or a
boolean. -/
inductive JsVal where
  | nullv : JsVal
  | num : Nat → JsVal
  | bool : Bool → JsVal
deriving DecidableEq, Repr

/-- JavaScript truthiness of a `JsVal` (`null` and `0` are falsy). -/
def jsTruthy : JsVal → Bool
  | .nullv => false
  | .num n => n != 0
  | .bool b => b

/-- JavaScript strict inequality `b !== v` between a boolean and a
`JsVal`: values of different runtime types are always strictly
unequal. -/
def jsStrictNeqBool (b : Bool) (v : JsVal) : Bool :=
  match v with
  | .bool c => b != c
  | _ => true

/-- JavaScript truthiness of a pid field (`null`, `undefined` and `0`
are falsy; the model folds absent and `null` into `none`). -/
def jsTruthyPid : Option Nat → Bool
  | none => false
  | some p => p != 0

/-- Lookup in a JavaScript-object-like association list (first matching
key wins). -/
def lookupA {κ β : Type} [BEq κ] : List (κ × β) → κ → Option β
  | [], _ => none
  | (k0, v0) :: rest, k => if k0 == k then some v0 else lookupA rest k

/-- Key assignment `obj[k] = v` on an association list: replaces the
value at an existing key in place, otherwise appends the new key at the
end (JavaScript object insertion order). -/
def setA {κ β : Type} [BEq κ] : List (κ × β) → κ → β → List (κ × β)
  | [], k, v => [(k, v)]
  | (k0, v0) :: rest, k, v =>
    if k0 == k then (k0, v) :: rest else (k0, v0) :: setA rest k v

/-- Key deletion `delete obj[k]` on an association list. -/
def eraseA {κ β : Type} [BEq κ] : List (κ × β) → κ → List (κ × β)
  | [], _ => []
  | (k0, v0) :: rest, k => if k0 == k then rest else (k0, v0) :: eraseA rest k

/-- ASCII model of JavaScript `toLowerCase()` on one character (the
denylist and command names in this system are ASCII). -/
def jsLowerChar (c : Char) : Char :=
  if 65 ≤ c.toNat && c.toNat ≤ 90 then Char.ofNat (c.toNat + 32) else c

/-- ASCII model of JavaScript `toLowerCase()` on a string. -/
def jsToLower (s : String) : String :=
  String.mk (s.data.map jsLowerChar)

/-- The whitespace class of JavaScript `trim()`, restricted to the ASCII
whitespace characters that occur in captured process output. -/
def jsIsWs (c : Char) : Bool :=
  c == ' ' || c == '\t' || c == '\n' || c == '\r'

/-- Model of JavaScript `trim()`: strip leading and trailing
whitespace. -/
def jsTrim (s : String) : String :=
  String.mk (((s.data.dropWhile jsIsWs).reverse.dropWhile jsIsWs).reverse)

/-- Splitting loop of JavaScript `split(' ')`: cut at every single space
character, keeping empty fields. -/
def splitOnSpaceAux : List Char → List Char → List String
  | [], acc => [String.mk acc.reverse]
  | c :: rest, acc =>
    if c == ' ' then String.mk acc.reverse :: splitOnSpaceAux rest []
    else splitOnSpaceAux rest (c :: acc)

def jsSplitSpace (s : String) : List String :=
  splitOnSpaceAux s.data []

/-- Model of JavaScript `args.join(", ")`. -/
def joinComma : List String → String
  | [] => ""
  | [x] => x
  | x :: rest => x ++ ", " ++ joinComma rest

/-- One entry of disabled_commands.json: a command name plus an optional
list of argument strings. -/
structure DisabledRule where
  command : String
  args : Option (List String)
deriving DecidableEq, Repr

/-- The indexed `for` loop inside
`ProcessManager.isCommandWithArgsDisabled`: each rule argument, lowered,
is compared against the (already lowered) request argument in the same
position; the request arguments are known to be at least as many when
the loop runs. -/
def ciPrefixLoop : List String → List String → Bool
  | [], _ => true
  | _ :: _, [] => false
  | e :: es, a :: as => if jsToLower e == a then ciPrefixLoop es as else false

/-- ProcessManager.isCommandWithArgsDisabled: case-insensitive command
match; a rule with absent or empty `args` matches unconditionally; a
rule with more arguments than the request never matches; otherwise every
rule argument must match the positional request argument
case-insensitively. -/
def isCommandWithArgsDisabled (rules : List DisabledRule) (command : String)
    (args : List String) : Bool :=
  let cmdLower := jsToLower command
  let argsLower := args.map jsToLower
  rules.any fun entry =>
    if jsToLower entry.command != cmdLower then false
    else
      match entry.args with
      | none => true
      | some eargs =>
        if eargs.isEmpty then true
        else if argsLower.length < eargs.length then false
        else ciPrefixLoop eargs argsLower

/-- The refusal message built in `ProcessManager.spawnProcess` for a
denylisted command. -/
def refusalMsg (command : String) (args : List String) : String :=
  "Command \"" ++ command ++ "\" with args [" ++ joinComma args ++
    "] is disabled and cannot be run."

/-- Supervisor-side record of one spawn attempt
(`pm.processes.get(id)`).  `hasProc` models whether the record carries a
live `proc` child-process object. -/
structure ProcInfo where
  id : Nat
  command : String
  args : List String
  hasProc : Bool
  pid : Option Nat
  cpu : Nat
  memory : Nat
  errors : List String
deriving DecidableEq, Repr

/-- ProcessManager.appendError, restricted to its effect on the handle:
pushes the message onto the handle error list (the fire-and-forget
append to the per-command log file is recorded as an event by the
callers). -/
def appendErrorInfo (info : ProcInfo) (errorMsg : String) : ProcInfo :=
  { info with errors := info.errors ++ [errorMsg] }

/-- ProcessManager state: the handle map, the monotone id counter, and
the denylist loaded at construction. -/
structure PMState where
  processes : List (Nat × ProcInfo)
  nextId : Nat
  disabledCommands : List DisabledRule
deriving DecidableEq, Repr

/-- Oracle describing what the OS does with a spawn request that passes
the Command Gate: either a process is created with the given pid, or
`spawn` throws with the given message. -/
inductive SpawnOutcome where
  | ok : Nat → SpawnOutcome
  | fail : String → SpawnOutcome
deriving DecidableEq, Repr

/-- Observable side effects of the supervisor, recorded in order:
registry persists, socket emissions, stdin writes, signals, OS spawns,
and fire-and-forget appends to the per-command failure log. -/
inductive Ev where
  | persist : Ev
  | emitStatus : Ev
  | emitList : Ev
  | statusUpdate : String → String → Ev
  | emitLog : String → Ev
  | stdinWrite : Nat → String → Ev
  | kill : Nat → String → Ev
  | spawnEv : Nat → Ev
  | fileLog : String → String → Ev
deriving DecidableEq, Repr

/-- One Registry entry of instances.json. -/
structure Instance where
  name : String
  workingDir : String
  command : String
  status : String
  pid : Option Nat
deriving DecidableEq, Repr

/-- Whole-server state of the supervisor-based server.js: the in-memory
Registry (`instances`), the per-instance log ring buffers
(`instanceLogs`), the ProcessManager, the on-disk snapshot (`disk`, the
contents of instances.json), the set of pids the OS currently considers
alive (`livePids`), a ghost map recording which instance each spawned
pid was started for (`spawnedFor`), and the ordered effect log. -/
structure ServerState where
  instances : List (String × Instance)
  instanceLogs : List (String × List String)
  pm : PMState
  disk : List (String × Instance)
  livePids : List Nat
  spawnedFor : List (Nat × String)
  events : List Ev
deriving DecidableEq, Repr

/-- saveInstances(): synchronously rewrites instances.json with the full
current map. -/
def saveInstances (st : ServerState) : ServerState :=
  { st with disk := st.instances, events := st.events ++ [Ev.persist] }

/-- ProcessManager.spawnProcess.  A denylisted command gets a handle
with `pid: null` whose error list receives the refusal message at
construction and then a second time through `appendError`; a passing
command is handed to the OS (the `outcome` oracle), yielding either a
live handle or a failed handle whose error list likewise receives the
spawn error twice. -/
def spawnProcess (st : ServerState) (command : String) (args : List String)
    (outcome : SpawnOutcome) : ServerState × Nat :=
  let pm := st.pm
  if isCommandWithArgsDisabled pm.disabledCommands command args then
    let id := pm.nextId
    let errorMsg := refusalMsg command args
    let info0 : ProcInfo :=
      { id := id, command := command, args := args, hasProc := false,
        pid := none, cpu := 0, memory := 0, errors := [errorMsg] }
    let info1 := appendErrorInfo info0 errorMsg
    let pm1 := { pm with processes := setA pm.processes id info1, nextId := pm.nextId + 1 }
    ({ st with pm := pm1, events := st.events ++ [Ev.fileLog command errorMsg] }, id)
  else
    match outcome with
    | .ok p =>
      let id := pm.nextId
      let info : ProcInfo :=
        { id := id, command := command, args := args, hasProc := true,
          pid := some p, cpu := 0, memory := 0, errors := [] }
      let pm1 := { pm with processes := setA pm.processes id info, nextId := pm.nextId + 1 }
      ({ st with pm := pm1, livePids := p :: st.livePids,
                 events := st.events ++ [Ev.spawnEv p] }, id)
    | .fail msg =>
      let id := pm.nextId
      let info0 : ProcInfo :=
        { id := id, command := command, args := args, hasProc := false,
          pid := none, cpu := 0, memory := 0, errors := [msg] }
      let info1 := appendErrorInfo info0 msg
      let pm1 := { pm with processes := setA pm.processes id info1, nextId := pm.nextId + 1 }
      ({ st with pm := pm1, events := st.events ++ [Ev.fileLog command msg] }, id)

/-- ProcessManager.killProcess: sends SIGTERM to the whole process group
of the handle pid; a delivery failure (pid no longer alive) is caught
and recorded on the handle, never rethrown. -/
def killProcess (st : ServerState) (processId : Nat) : ServerState :=
  match lookupA st.pm.processes processId with
  | none => st
  | some info =>
    match info.pid with
    | some p =>
      if p != 0 then
        if st.livePids.contains p then
          { st with livePids := st.livePids.erase p,
                    events := st.events ++ [Ev.kill p "SIGTERM"] }
        else
          let msg := "Error killing process " ++ toString p ++ ": ESRCH"
          let info1 := appendErrorInfo info msg
          { st with pm := { st.pm with processes := setA st.pm.processes processId info1 },
                    events := st.events ++ [Ev.fileLog info.command msg] }
      else
        let msg := "Cannot kill process: process was never started or already exited."
        let info1 := appendErrorInfo info msg
        { st with pm := { st.pm with processes := setA st.pm.processes processId info1 },
                  events := st.events ++ [Ev.fileLog info.command msg] }
    | none =>
      let msg := "Cannot kill process: process was never started or already exited."
      let info1 := appendErrorInfo info msg
      { st with pm := { st.pm with processes := setA st.pm.processes processId info1 },
                events := st.events ++ [Ev.fileLog info.command msg] }

/-- Splitting on the regular expression of `text.split(/\r?\n/)`: a line
break is a bare newline or a carriage return followed by a newline; a
lone carriage return is ordinary text. -/
def splitCharsJs : List Char → List Char → List String
  | [], acc => [String.mk acc.reverse]
  | '\r' :: '\n' :: rest, acc => String.mk acc.reverse :: splitCharsJs rest []
  | '\n' :: rest, acc => String.mk acc.reverse :: splitCharsJs rest []
  | c :: rest, acc => splitCharsJs rest (c :: acc)

def splitLinesJs (s : String) : List String :=
  splitCharsJs s.data []

/-- The `while (length > cap) shift()` trimming loop: drop from the
front until at most `cap` lines remain. -/
def trimFront (l : List String) (cap : Nat) : List String :=
  l.drop (l.length - cap)

def logsOf (st : ServerState) (name : String) : List String :=
  (lookupA st.instanceLogs name).getD []

/-- appendInstanceLog(name, text, io): split the chunk on line breaks,
skip lines that are empty after `trim()`, push the rest, trim the buffer
to 400 lines from the front, and emit the raw chunk to subscribers. -/
def appendInstanceLog (st : ServerState) (name : String) (text : String) : ServerState :=
  let cur := logsOf st name
  let kept := (splitLinesJs text).filter fun line => !(jsTrim line == "")
  let buf := trimFront (cur ++ kept) 400
  { st with instanceLogs := setA st.instanceLogs name buf,
            events := st.events ++ [Ev.emitLog name] }

/-- Error values thrown or rejected by the server operations. -/
inductive SrvErr where
  | missingFields : SrvErr
  | alreadyExists : SrvErr
  | notFound : SrvErr
  | alreadyRunning : SrvErr
  | spawnFailed : SrvErr
  | notRunning : SrvErr
  | procNotFound : SrvErr
  | stdinFailed : SrvErr
  | timeout : SrvErr
  | referenceError : SrvErr
deriving DecidableEq, Repr

/-- Tokenisation `instance.command.split(' ')` at the top of
startServer. -/
def instCmdParts (inst : Instance) : List String :=
  jsSplitSpace inst.command

/-- The executable resolution of startServer: the first token of the
stored command line, absolutised against the working directory when
`fs.pathExists(workingDir/command)` holds, else left bare for PATH
resolution. -/
def resolvedCommand (inst : Instance) (pathExists : Bool) : String :=
  let c := (instCmdParts inst).headD ""
  if pathExists then inst.workingDir ++ "/" ++ c else c

/-- The rest-of-the-tokens arguments `const [command, ...args]`. -/
def instArgs (inst : Instance) : List String :=
  (instCmdParts inst).tail

/-- startServer(name, io) of the supervisor-based server.  `pathExists`
is the oracle for `fs.pathExists(workingDir/command)`.  The JavaScript
function mutates shared state and throws; the model threads the state
through even on the error result.  Note there is no already-running
guard in this variant. -/
def startServer (st : ServerState) (name : String) (pathExists : Bool)
    (outcome : SpawnOutcome) : ServerState × Except SrvErr Nat :=
  match lookupA st.instances name with
  | none => (st, .error .notFound)
  | some inst =>
    let args := instArgs inst
    let cmdToRun := resolvedCommand inst pathExists
    let spawned := spawnProcess st cmdToRun args outcome
    let st1 := spawned.1
    match lookupA st1.pm.processes spawned.2 with
    | none => (st1, .error .spawnFailed)
    | some procInfo =>
      match procInfo.pid with
      | none => (st1, .error .spawnFailed)
      | some p =>
        if p == 0 then (st1, .error .spawnFailed)
        else
          let inst1 := { inst with pid := some p, status := "running" }
          let st2 := { st1 with instances := setA st1.instances name inst1,
                                spawnedFor := st1.spawnedFor ++ [(p, name)] }
          let st3 := saveInstances st2
          ({ st3 with events := st3.events ++ [Ev.statusUpdate name "running"] }, .ok p)

/-- stopServer(name): requires a truthy Registry pid and a supervisor
handle carrying a live child object for that pid; writes `stop` plus a
newline to stdin (`writeOk` is the oracle for the write), then either
the child exits inside the grace window (`exitsInGrace`) or the timer
fires and SIGKILL is sent; both paths run cleanup(): status `stopped`,
pid `null`, reap the handle, persist, resolve. -/
def stopServer (st : ServerState) (name : String) (writeOk : Bool)
    (exitsInGrace : Bool) : ServerState × Except SrvErr Unit :=
  match lookupA st.instances name with
  | none => (st, .error .notRunning)
  | some inst =>
    match inst.pid with
    | none => (st, .error .notRunning)
    | some p =>
      if p == 0 then (st, .error .notRunning)
      else
        match st.pm.processes.find? (fun pr => pr.2.pid == some p) with
        | none => (st, .error .procNotFound)
        | some found =>
          if !found.2.hasProc then (st, .error .procNotFound)
          else if !writeOk then (st, .error .stdinFailed)
          else
            let st1 := { st with events := st.events ++ [Ev.stdinWrite p "stop\n"] }
            let st2 :=
              if exitsInGrace then
                { st1 with livePids := st1.livePids.erase p }
              else
                { st1 with livePids := st1.livePids.erase p,
                           events := st1.events ++ [Ev.kill p "SIGKILL"] }
            let inst1 := { inst with status := "stopped", pid := none }
            let st3 :=
              { st2 with instances := setA st2.instances name inst1,
                         pm := { st2.pm with processes := eraseA st2.pm.processes found.2.id } }
            (saveInstances st3, .ok ())

/-- The timer condition of waitUntilStopped: resolve when the instance
is gone or its status is `stopped`. -/
def stoppedCheck (st : ServerState) (name : String) : Bool :=
  match lookupA st.instances name with
  | none => true
  | some inst => inst.status == "stopped"

/-- The 250 ms polling loop of waitUntilStopped(name, 5000), with the
remaining number of re-checks as fuel; with a 5000 ms budget the check
runs 20 times before the rejection fires.  The control plane is
single-threaded, so the state does not change between polls. -/
def waitPoll (st : ServerState) (name : String) : Nat → Except SrvErr Unit
  | 0 => if stoppedCheck st name then .ok () else .error .timeout
  | fuel + 1 => if stoppedCheck st name then .ok () else waitPoll st name fuel

def waitUntilStopped (st : ServerState) (name : String) : Except SrvErr Unit :=
  waitPoll st name 19

/-- restartServer(name, io) together with the list of states the
composition passes through: the entry state, the state after
`await stopServer`, and (when the poll resolves) the state after
`await startServer`. -/
def restartRun (st : ServerState) (name : String) (writeOk exitsInGrace pathExists : Bool)
    (outcome : SpawnOutcome) : List ServerState × (ServerState × Except SrvErr Nat) :=
  let s1 := stopServer st name writeOk exitsInGrace
  match s1.2 with
  | .error e => ([st, s1.1], (s1.1, .error e))
  | .ok _ =>
    match waitUntilStopped s1.1 name with
    | .error e => ([st, s1.1], (s1.1, .error e))
    | .ok _ =>
      let s2 := startServer s1.1 name pathExists outcome
      ([st, s1.1, s2.1], s2)

def restartServer (st : ServerState) (name : String) (writeOk exitsInGrace pathExists : Bool)
    (outcome : SpawnOutcome) : ServerState × Except SrvErr Nat :=
  (restartRun st name writeOk exitsInGrace pathExists outcome).2

/-- The first `function terminateInstance(name)` declaration (the
lifecycle variant): kill the tracked handle if one matches the Registry
pid, then mark the entry `terminated` with a cleared pid and persist.
It never deletes the Registry entry or the log buffer.  Because the file
later declares a second function with the same name, hoisting makes this
declaration unreachable from every call site. -/
def terminateInstance_lifecycle (st : ServerState) (name : String) : ServerState :=
  match lookupA st.instances name with
  | none => st
  | some inst =>
    match inst.pid with
    | none => st
    | some p =>
      if p == 0 then st
      else
        let st1 :=
          match st.pm.processes.find? (fun pr => pr.2.pid == some p) with
          | some found => killProcess st found.2.id
          | none => st
        let inst1 := { inst with status := "terminated", pid := none }
        saveInstances { st1 with instances := setA st1.instances name inst1 }

/-- The second `function terminateInstance(name, socket)` declaration,
the one that function hoisting makes effective for every call site in
the supervisor-based server.  Its first statement reads `processes[name]`,
but no variable named `processes` is declared anywhere in that file (it
exists only in the legacy server), so the call throws a ReferenceError
before performing any mutation. -/
def terminateInstance_socket (st : ServerState) (name : String) :
    ServerState × Except SrvErr Unit :=
  let _ := name
  (st, .error .referenceError)

/-- The remainder of the socket `terminateInstance` body after the
throwing line, modelled as though the `processes` lookup had produced
nothing: it deletes the Registry entry and persists, but never touches
`instanceLogs`.  This code is unreachable in the source; it is embedded
to show that even the intended path would not delete the log buffer. -/
def terminateInstance_socketBody (st : ServerState) (name : String) : ServerState :=
  let st1 :=
    match lookupA st.instances name with
    | none => st
    | some inst =>
      let inst1 := { inst with status := "stopped", pid := none }
      { st with instances := eraseA (setA st.instances name inst1) name }
  let st2 := saveInstances st1
  { st2 with events := st2.events ++ [Ev.emitList, Ev.emitStatus] }

/-- POST /api/instances: register a new instance with empty-field and
duplicate-name checks, then persist. -/
def registerInstance (st : ServerState) (name workingDir command : String) :
    ServerState × Except SrvErr Unit :=
  if name == "" || workingDir == "" || command == "" then (st, .error .missingFields)
  else
    match lookupA st.instances name with
    | some _ => (st, .error .alreadyExists)
    | none =>
      let inst : Instance :=
        { name := name, workingDir := workingDir, command := command,
          status := "stopped", pid := none }
      (saveInstances { st with instances := setA st.instances name inst }, .ok ())

/-- The socket updateInstanceSettings handler: rewrites the stored
fields, moves the entry to the new key on a rename, and notifies
subscribers.  It never calls saveInstances. -/
def updateInstanceSettings (st : ServerState) (originalName name workingDir command : String) :
    ServerState × Bool :=
  match lookupA st.instances originalName with
  | none => (st, false)
  | some inst =>
    let inst1 := { inst with name := name, workingDir := workingDir, command := command }
    let insts1 := setA st.instances originalName inst1
    let insts2 :=
      if originalName != name then eraseA (setA insts1 name inst1) originalName
      else insts1
    ({ st with instances := insts2, events := st.events ++ [Ev.emitList] }, true)

/-- The value of `inst.pid && isPidRunning(inst.pid)` in the periodic
status check: `null` when pid is null, the number `0` when pid is `0`,
otherwise the boolean liveness probe result. -/
def isRunningNowJs (pid : Option Nat) (alive : Nat → Bool) : JsVal :=
  match pid with
  | none => .nullv
  | some p => if p == 0 then .num 0 else .bool (alive p)

/-- The per-instance body of the 10-second setInterval loop, returning
the updated entry together with whether the `changed` flag was set for
it.  The comparison `wasRunning !== isRunningNow` is JavaScript strict
inequality between a boolean and a possibly-null value. -/
def tickOne (alive : Nat → Bool) (inst : Instance) : Instance × Bool :=
  let wasRunning := inst.status == "running"
  let isRunningNow := isRunningNowJs inst.pid alive
  if jsStrictNeqBool wasRunning isRunningNow then
    let status := if jsTruthy isRunningNow then "running" else "stopped"
    let pid := if jsTruthy isRunningNow then inst.pid else none
    ({ inst with status := status, pid := pid }, true)
  else
    (inst, false)

/-- One reconciliation tick of the setInterval loop: correct every
entry, then, if any iteration set the `changed` flag, persist once and
emit one batched instancesStatus notification. -/
def reconTick (alive : Nat → Bool) (st : ServerState) : ServerState :=
  let stepped := st.instances.map fun pr => (pr.1, tickOne alive pr.2)
  let changed := stepped.any fun pr => pr.2.2
  let insts := stepped.map fun pr => (pr.1, pr.2.1)
  if changed then
    let st1 := saveInstances { st with instances := insts }
    { st1 with events := st1.events ++ [Ev.emitStatus] }
  else
    { st with instances := insts }

/-- Number of OS processes currently alive that were spawned for the
given instance name. -/
def liveForCount (st : ServerState) (name : String) : Nat :=
  (st.spawnedFor.filter fun pr => pr.2 == name && st.livePids.contains pr.1).length

/-- State of the legacy inline server, which tracks child processes in a
plain `processes` object keyed by instance name. -/
structure LegacyState where
  instances : List (String × Instance)
  processes : List (String × Nat)
  logs : List (String × String)
  disk : List (String × Instance)
  livePids : List Nat
  events : List Ev
deriving DecidableEq, Repr

def saveInstancesLegacy (st : LegacyState) : LegacyState :=
  { st with disk := st.instances, events := st.events ++ [Ev.persist] }

/-- startServer of the legacy server: fails when the instance is absent,
fails when a child process is already tracked under the name, otherwise
spawns (`spawnPid` is the OS oracle), records the child, resets the log,
marks the entry running and persists. -/
def startServer_legacy (st : LegacyState) (name : String) (spawnPid : Nat) :
    LegacyState × Except SrvErr Nat :=
  match lookupA st.instances name with
  | none => (st, .error .notFound)
  | some inst =>
    match lookupA st.processes name with
    | some _ => (st, .error .alreadyRunning)
    | none =>
      let st1 := { st with processes := setA st.processes name spawnPid,
                           logs := setA st.logs name "",
                           livePids := spawnPid :: st.livePids,
                           events := st.events ++ [Ev.spawnEv spawnPid] }
      let inst1 := { inst with pid := some spawnPid, status := "running" }
      let st2 := saveInstancesLegacy { st1 with instances := setA st1.instances name inst1 }
      ({ st2 with events := st2.events ++ [Ev.statusUpdate name "running"] }, .ok spawnPid)

/-- Spec-side matching condition of one denylist rule, written from the
claim: the rule command equals the request command case-insensitively,
and either the rule carries no argument list (or an empty one), or every
element of the rule argument list equals, case-insensitively and in
order, the corresponding positional request argument. -/
def ruleMatchesClaim (r : DisabledRule) (command : String) (args : List String) : Prop :=
  jsToLower r.command = jsToLower command ∧
  (r.args = none ∨ r.args = some [] ∨
    ∃ l, r.args = some l ∧ l.length ≤ args.length ∧
      ∀ i, i < l.length → jsToLower (l.getD i "") = jsToLower (args.getD i ""))

/-- Spec-side line filter written from the claim for the log buffer:
only purely empty lines are discarded. -/
def appendClaimKept (text : String) : List String :=
  (splitLinesJs text).filter fun l => !(l == "")

/-- The Registry invariant of the claim: a non-null pid exactly when the
status is the string `running`. -/
def pidStatusOk (inst : Instance) : Prop :=
  inst.pid ≠ none ↔ inst.status = "running"

def registryInv (insts : List (String × Instance)) : Prop :=
  ∀ pr ∈ insts, pidStatusOk pr.2

instance (inst : Instance) : Decidable (pidStatusOk inst) := by
  unfold pidStatusOk; infer_instance

instance (insts : List (String × Instance)) : Decidable (registryInv insts) := by
  unfold registryInv; infer_instance

/-- The on-disk snapshot agrees with the in-memory Registry. -/
def synced (st : ServerState) : Prop :=
  st.disk = st.instances

/-- Concrete stopped instance whose command line is denylisted by
`gateState`. -/
def gateInst : Instance :=
  { name := "alpha", workingDir := "/srv/alpha", command := "rm -rf /",
    status := "stopped", pid := none }

/-- Concrete server state whose denylist blocks the command `rm`. -/
def gateState : ServerState :=
  { instances := [("alpha", gateInst)]
    instanceLogs := []
    pm := { processes := [], nextId := 1,
            disabledCommands := [{ command := "rm", args := none }] }
    disk := [("alpha", gateInst)]
    livePids := []
    spawnedFor := []
    events := [] }

/-- Concrete running instance used to exercise stop, restart and
terminate on concrete inputs. -/
def runInst : Instance :=
  { name := "alpha", workingDir := "/srv/alpha", command := "run.sh",
    status := "running", pid := some 5 }

/-- The supervisor handle tracking `runInst`. -/
def runHandle : ProcInfo :=
  { id := 1, command := "/srv/alpha/run.sh", args := [], hasProc := true,
    pid := some 5, cpu := 0, memory := 0, errors := [] }

/-- Concrete server state with one running instance `alpha` on pid 5. -/
def runState : ServerState :=
  { instances := [("alpha", runInst)]
    instanceLogs := [("alpha", ["line1"])]
    pm := { processes := [(1, runHandle)], nextId := 2, disabledCommands := [] }
    disk := [("alpha", runInst)]
    livePids := [5]
    spawnedFor := [(5, "alpha")]
    events := [] }

/-- Concrete server state whose log buffer for `alpha` is filled to the
400-line capacity. -/
def fullLogState : ServerState :=
  { instances := []
    instanceLogs := [("alpha", List.replicate 400 "x")]
    pm := { processes := [], nextId := 1, disabledCommands := [] }
    disk := []
    livePids := []
    spawnedFor := []
    events := [] }

/-- Concrete server state with no log buffers yet. -/
def emptyLogState : ServerState :=
  { instances := []
    instanceLogs := []
    pm := { processes := [], nextId := 1, disabledCommands := [] }
    disk := []
    livePids := []
    spawnedFor := []
    events := [] }

/-- The state stopServer resolves with on its success path, spelled out:
the stdin write (and, when the grace window elapses, the SIGKILL) are
recorded, the child pid leaves the OS live set, the entry is set to
`stopped` with a cleared pid, the handle is reaped, and the Registry is
persisted. -/
def stopCleanupState (st : ServerState) (name : String) (inst : Instance) (p : Nat)
    (fid : Nat) (eg : Bool) : ServerState :=
  let ev0 := st.events ++ [Ev.stdinWrite p "stop\n"]
  let ev1 := if eg then ev0 else ev0 ++ [Ev.kill p "SIGKILL"]
  saveInstances
    { st with events := ev1,
              livePids := st.livePids.erase p,
              instances := setA st.instances name { inst with status := "stopped", pid := none },
              pm := { st.pm with processes := eraseA st.pm.processes fid } }

end MMM

/-! ### Lemmas about the association-list primitives -/

namespace MMM

theorem lookupA_setA_self {κ β : Type} [BEq κ] [LawfulBEq κ] (l : List (κ × β)) (k : κ)
    (v : β) : lookupA (setA l k v) k = some v := by
  induction l with
  | nil => simp [setA, lookupA]
  | cons hd tl ih =>
    obtain ⟨k0, v0⟩ := hd
    by_cases h : (k0 == k) = true
    · simp [setA, lookupA, h]
    · simp only [setA, lookupA, h, if_false, Bool.false_eq_true]
      exact ih

theorem mem_setA {κ β : Type} [BEq κ] (l : List (κ × β)) (k : κ) (v : β) :
    ∀ pr ∈ setA l k v, pr.2 = v ∨ pr ∈ l := by
  induction l with
  | nil => intro pr hpr; simp [setA] at hpr; simp [hpr]
  | cons hd tl ih =>
    intro pr hpr
    obtain ⟨k0, v0⟩ := hd
    by_cases h : (k0 == k) = true
    · simp only [setA, h, if_true] at hpr
      rcases List.mem_cons.mp hpr with h1 | h1
      · left; simp [h1]
      · right; exact List.mem_cons_of_mem _ h1
    · simp only [setA, h, Bool.false_eq_true, if_false] at hpr
      rcases List.mem_cons.mp hpr with h1 | h1
      · right; simp [h1]
      · rcases ih pr h1 with h2 | h2
        · left; exact h2
        · right; exact List.mem_cons_of_mem _ h2

theorem mem_eraseA {κ β : Type} [BEq κ] (l : List (κ × β)) (k : κ) :
    ∀ pr ∈ eraseA l k, pr ∈ l := by
  induction l with
  | nil => intro pr hpr; simp [eraseA] at hpr
  | cons hd tl ih =>
    intro pr hpr
    obtain ⟨k0, v0⟩ := hd
    by_cases h : (k0 == k) = true
    · simp only [eraseA, h, if_true] at hpr
      exact List.mem_cons_of_mem _ hpr
    · simp only [eraseA, h, Bool.false_eq_true, if_false] at hpr
      rcases List.mem_cons.mp hpr with h1 | h1
      · simp [h1]
      · exact List.mem_cons_of_mem _ (ih pr h1)

theorem lookupA_eq_none_of_not_mem {κ β : Type} [BEq κ] [LawfulBEq κ] (l : List (κ × β))
    (k : κ) (h : k ∉ l.map Prod.fst) : lookupA l k = none := by
  induction l with
  | nil => rfl
  | cons hd tl ih =>
    obtain ⟨k0, v0⟩ := hd
    simp only [List.map_cons, List.mem_cons] at h
    push_neg at h
    have hne : (k0 == k) = false := by
      rw [beq_eq_false_iff_ne]
      exact fun hk => h.1 hk.symm
    simp only [lookupA, hne, Bool.false_eq_true, if_false]
    exact ih h.2

theorem lookupA_eraseA_self {κ β : Type} [BEq κ] [LawfulBEq κ] (l : List (κ × β)) (k : κ)
    (h : (l.map Prod.fst).Nodup) : lookupA (eraseA l k) k = none := by
  induction l with
  | nil => rfl
  | cons hd tl ih =>
    obtain ⟨k0, v0⟩ := hd
    simp only [List.map_cons, List.nodup_cons] at h
    by_cases hk : (k0 == k) = true
    · simp only [eraseA, hk, if_true]
      have : k ∉ tl.map Prod.fst := by
        rw [← eq_of_beq hk]
        exact h.1
      exact lookupA_eq_none_of_not_mem tl k this
    · simp only [eraseA, hk, Bool.false_eq_true, if_false, lookupA]
      exact ih h.2

end MMM

/-! ### The Command Gate (claim C6) -/

namespace MMM

theorem getD_map_toLower (args : List String) (i : Nat) (h : i < args.length) :
    (args.map jsToLower).getD i "" = jsToLower (args.getD i "") := by
  induction args generalizing i with
  | nil => simp at h
  | cons a as ih =>
    cases i with
    | zero => simp
    | succ j =>
      simp only [List.map_cons, List.getD_cons_succ]
      exact ih j (Nat.lt_of_succ_lt_succ h)

theorem ciPrefixLoop_iff (l m : List String) :
    ciPrefixLoop l m = true ↔
      (l.length ≤ m.length ∧ ∀ i, i < l.length → jsToLower (l.getD i "") = m.getD i "") := by
  induction l generalizing m with
  | nil => simp [ciPrefixLoop]
  | cons e es ih =>
    cases m with
    | nil => simp [ciPrefixLoop]
    | cons a as =>
      simp only [ciPrefixLoop]
      by_cases h : jsToLower e = a
      · simp only [h, beq_self_eq_true, if_true, ih, List.length_cons]
        constructor
        · rintro ⟨hle, hall⟩
          refine ⟨Nat.succ_le_succ hle, fun i hi => ?_⟩
          cases i with
          | zero => simpa using h
          | succ j =>
            simp only [List.getD_cons_succ]
            exact hall j (Nat.lt_of_succ_lt_succ hi)
        · rintro ⟨hle, hall⟩
          refine ⟨Nat.le_of_succ_le_succ hle, fun i hi => ?_⟩
          have := hall (i + 1) (Nat.succ_lt_succ hi)
          simpa using this
      · have hne : (jsToLower e == a) = false := beq_eq_false_iff_ne.mpr h
        simp only [hne, Bool.false_eq_true, if_false]
        constructor
        · intro hfalse; exact absurd hfalse (by simp)
        · rintro ⟨hle, hall⟩
          exact absurd (by simpa using hall 0 (Nat.succ_pos _)) h

/-- C6.  `isDisabled` returns true exactly when some denylist rule
matches the request in the sense spelled out by the specification:
case-insensitive command equality, and either no argument constraint
(absent or empty list) or ordered case-insensitive equality of every
rule argument with the corresponding positional request argument. -/
theorem claim_C6_gate_iff (rules : List DisabledRule) (command : String)
    (args : List String) :
    isCommandWithArgsDisabled rules command args = true ↔
      ∃ r ∈ rules, ruleMatchesClaim r command args := by
  unfold isCommandWithArgsDisabled
  simp only [List.any_eq_true]
  refine exists_congr fun r => and_congr_right fun _ => ?_
  by_cases hc : jsToLower r.command = jsToLower command
  · have hcb : (jsToLower r.command != jsToLower command) = false := by
      simp [hc]
    rcases hargs : r.args with _ | l
    · simp [hcb, hc, hargs, ruleMatchesClaim]
    · rcases l with _ | ⟨x, xs⟩
      · simp [hcb, hc, hargs, ruleMatchesClaim]
      · by_cases hl : (args.map jsToLower).length < (x :: xs).length
        · have hl2 : ¬((x :: xs).length ≤ args.length) := by
            simpa using hl
          simp only [hcb, Bool.false_eq_true, if_false, List.isEmpty_cons, hl, if_true]
          simp only [ruleMatchesClaim, hargs, false_iff, hc]
          rintro ⟨-, h1 | h1 | ⟨l2, hl2eq, hle, -⟩⟩
          · exact Option.noConfusion h1
          · exact List.noConfusion (Option.some.inj h1)
          · exact hl2 (by rw [← Option.some.inj hl2eq] at hle; exact hle)
        · simp only [hcb, Bool.false_eq_true, if_false, List.isEmpty_cons, hl]
          rw [ciPrefixLoop_iff]
          simp only [ruleMatchesClaim, hargs, hc, true_and, List.length_map] at *
          constructor
          · rintro ⟨hle, hall⟩
            refine Or.inr (Or.inr ⟨x :: xs, rfl, by simpa using hle, fun i hi => ?_⟩)
            have := hall i hi
            rwa [getD_map_toLower args i (Nat.lt_of_lt_of_le hi (by simpa using hle))]
              at this
          · rintro (h1 | h1 | ⟨l2, hl2eq, hle, hall⟩)
            · exact Option.noConfusion h1
            · exact List.noConfusion (Option.some.inj h1)
            · obtain rfl : l2 = x :: xs := (Option.some.inj hl2eq).symm
              refine ⟨by simpa using hle, fun i hi => ?_⟩
              rw [getD_map_toLower args i (Nat.lt_of_lt_of_le hi hle)]
              exact hall i hi
  · have hcb : (jsToLower r.command != jsToLower command) = true := by
      simp [bne_iff_ne, hc]
    simp only [hcb, if_true, ruleMatchesClaim, Bool.false_eq_true, false_iff]
    rintro ⟨h1, -⟩
    exact hc h1

end MMM

/-! ### The Command Gate refusal path (claim C2) -/

namespace MMM

/-- Shape of the ProcessManager state after a denylisted spawn: the next
id is consumed; the stored handle has a null pid and carries the refusal
message twice (once from the handle construction, once from the
`appendError` push); nothing is handed to the OS and the Registry is not
touched. -/
theorem spawnProcess_disabled (st : ServerState) (cmd : String) (args : List String)
    (o : SpawnOutcome)
    (h : isCommandWithArgsDisabled st.pm.disabledCommands cmd args = true) :
    (spawnProcess st cmd args o).2 = st.pm.nextId ∧
    (spawnProcess st cmd args o).1.pm.processes =
      setA st.pm.processes st.pm.nextId
        { id := st.pm.nextId, command := cmd, args := args, hasProc := false,
          pid := none, cpu := 0, memory := 0,
          errors := [refusalMsg cmd args, refusalMsg cmd args] } ∧
    (spawnProcess st cmd args o).1.livePids = st.livePids ∧
    (spawnProcess st cmd args o).1.instances = st.instances := by
  simp only [spawnProcess, h, if_true]
  refine ⟨?_, ?_, ?_, ?_⟩ <;> trivial

/-- C2 (amended).  A spawn request matching a denylist rule never
reaches the OS: the handle is created with `pid: null` and the instance
map and live-pid set are untouched — but the handle records the refusal
message twice, not once.  Consequently `startServer` on an instance
whose resolved command is denylisted throws after the refused spawn,
leaving the Registry entry unchanged (it is never marked running). -/
theorem claim_C2_amended :
    (∀ (st : ServerState) (cmd : String) (args : List String) (o : SpawnOutcome),
      isCommandWithArgsDisabled st.pm.disabledCommands cmd args = true →
      lookupA (spawnProcess st cmd args o).1.pm.processes (spawnProcess st cmd args o).2 =
        some { id := st.pm.nextId, command := cmd, args := args, hasProc := false,
               pid := none, cpu := 0, memory := 0,
               errors := [refusalMsg cmd args, refusalMsg cmd args] } ∧
      (spawnProcess st cmd args o).1.livePids = st.livePids ∧
      (spawnProcess st cmd args o).1.instances = st.instances) ∧
    (∀ (st : ServerState) (name : String) (inst : Instance) (pe : Bool) (o : SpawnOutcome),
      lookupA st.instances name = some inst →
      isCommandWithArgsDisabled st.pm.disabledCommands (resolvedCommand inst pe)
        (instArgs inst) = true →
      (startServer st name pe o).2 = .error .spawnFailed ∧
      (startServer st name pe o).1.instances = st.instances ∧
      (startServer st name pe o).1.livePids = st.livePids) := by
  constructor
  · intro st cmd args o h
    obtain ⟨h1, h2, h3, h4⟩ := spawnProcess_disabled st cmd args o h
    refine ⟨?_, h3, h4⟩
    rw [h1, h2]
    exact lookupA_setA_self _ _ _
  · intro st name inst pe o hI h
    obtain ⟨h1, h2, h3, h4⟩ :=
      spawnProcess_disabled st (resolvedCommand inst pe) (instArgs inst) o h
    simp only [startServer, hI]
    rw [h1, h2, lookupA_setA_self]
    exact ⟨rfl, h4, h3⟩

/-- Witness for C2 (amended) at a concrete state: starting the
registered instance `alpha`, whose command line is `rm -rf /` against a
denylist blocking `rm`, throws and leaves the Registry and the live-pid
set unchanged. -/
theorem claim_C2_witness :
    (startServer gateState "alpha" false (.ok 9)).2 = .error .spawnFailed ∧
    (startServer gateState "alpha" false (.ok 9)).1.instances = gateState.instances ∧
    (startServer gateState "alpha" false (.ok 9)).1.livePids = gateState.livePids :=
  claim_C2_amended.2 gateState "alpha" gateInst false (.ok 9) rfl rfl

/-- Counterexample to C2 as stated: the Process Handle created for the
refused spawn records the refusal message twice, not exactly once. -/
theorem claim_C2_counterexample :
    (lookupA (spawnProcess gateState "rm" [] (.ok 9)).1.pm.processes
        (spawnProcess gateState "rm" [] (.ok 9)).2).map (fun i => i.errors) =
      some [refusalMsg "rm" [], refusalMsg "rm" []] ∧
    (lookupA (spawnProcess gateState "rm" [] (.ok 9)).1.pm.processes
        (spawnProcess gateState "rm" [] (.ok 9)).2).map (fun i => i.errors.length) =
      some 2 ∧
    (2 : Nat) ≠ 1 :=
  ⟨rfl, rfl, by decide⟩

end MMM

/-! ### The Log Buffer (claim C9) -/

namespace MMM

theorem appendInstanceLog_logsOf (st : ServerState) (name text : String) :
    logsOf (appendInstanceLog st name text) name =
      trimFront (logsOf st name ++ (splitLinesJs text).filter (fun l => !(jsTrim l == "")))
        400 := by
  simp only [appendInstanceLog, logsOf]
  rw [lookupA_setA_self]
  exact Option.getD_some

/-- C9 (amended).  `append` splits the chunk on line breaks, discards
the lines that are empty after trimming whitespace (not only the purely
empty ones), appends the remaining lines in order and trims from the
front to the 400-line capacity; hence the buffer never exceeds 400
lines, and appending one kept line to a full buffer drops exactly the
oldest line. -/
theorem claim_C9_amended (st : ServerState) (name text : String) :
    logsOf (appendInstanceLog st name text) name =
      trimFront (logsOf st name ++ (splitLinesJs text).filter (fun l => !(jsTrim l == "")))
        400 ∧
    (logsOf (appendInstanceLog st name text) name).length ≤ 400 ∧
    (∀ line, (logsOf st name).length = 400 →
      (splitLinesJs text).filter (fun l => !(jsTrim l == "")) = [line] →
      logsOf (appendInstanceLog st name text) name = (logsOf st name).drop 1 ++ [line]) := by
  refine ⟨appendInstanceLog_logsOf st name text, ?_, ?_⟩
  · rw [appendInstanceLog_logsOf]
    simp only [trimFront, List.length_drop]
    omega
  · intro line h400 hkept
    rw [appendInstanceLog_logsOf, hkept]
    simp only [trimFront, List.length_append, h400, List.length_singleton]
    rw [List.drop_append_eq_append_drop]
    simp [h400]

set_option maxRecDepth 40000 in
/-- Witness for C9 (amended): appending the single line `y` to a buffer
holding exactly 400 lines drops exactly the oldest line. -/
theorem claim_C9_witness :
    logsOf (appendInstanceLog fullLogState "alpha" "y") "alpha" =
      (logsOf fullLogState "alpha").drop 1 ++ ["y"] :=
  (claim_C9_amended fullLogState "alpha" "y").2.2 "y" rfl rfl

set_option maxRecDepth 40000 in
/-- Counterexample to C9 as stated: the chunk of the three lines `a`,
one space and `b` contains a whitespace-only line, which is not purely
empty; the claim says it is appended, but the code discards it. -/
theorem claim_C9_counterexample :
    logsOf (appendInstanceLog emptyLogState "alpha" "a\n \nb") "alpha" = ["a", "b"] ∧
    appendClaimKept "a\n \nb" = ["a", " ", "b"] ∧
    (["a", "b"] : List String) ≠ ["a", " ", "b"] :=
  ⟨rfl, rfl, by decide⟩

end MMM

/-! ### Registry persistence (claim C7) -/

namespace MMM

theorem synced_saveInstances (st : ServerState) : synced (saveInstances st) := rfl

/-- spawnProcess only touches the ProcessManager, the live-pid set and
the event log. -/
theorem spawnProcess_frame (st : ServerState) (c : String) (a : List String)
    (o : SpawnOutcome) :
    (spawnProcess st c a o).1.instances = st.instances ∧
    (spawnProcess st c a o).1.disk = st.disk ∧
    (spawnProcess st c a o).1.instanceLogs = st.instanceLogs ∧
    (spawnProcess st c a o).1.spawnedFor = st.spawnedFor := by
  unfold spawnProcess
  by_cases h : isCommandWithArgsDisabled st.pm.disabledCommands c a = true
  · simp [h]
  · simp only [Bool.not_eq_true] at h
    cases o <;> simp [h]

theorem tickOne_not_changed (alive : Nat → Bool) (inst : Instance)
    (h : (tickOne alive inst).2 = false) : (tickOne alive inst).1 = inst := by
  unfold tickOne at *
  by_cases hb : jsStrictNeqBool (inst.status == "running") (isRunningNowJs inst.pid alive) = true
  · simp [hb] at h
  · simp only [Bool.not_eq_true] at hb
    simp [hb]

theorem startServer_synced (st : ServerState) (h : synced st) (n : String) (pe : Bool)
    (o : SpawnOutcome) : synced (startServer st n pe o).1 := by
  unfold startServer
  cases hI : lookupA st.instances n with
  | none => exact h
  | some inst =>
    obtain ⟨f1, f2, f3, f4⟩ := spawnProcess_frame st (resolvedCommand inst pe) (instArgs inst) o
    cases hP : lookupA (spawnProcess st (resolvedCommand inst pe) (instArgs inst) o).1.pm.processes
        (spawnProcess st (resolvedCommand inst pe) (instArgs inst) o).2 with
    | none =>
      simp only [hP]
      unfold synced
      rw [f1, f2]
      exact h
    | some pi =>
      cases hpid : pi.pid with
      | none =>
        simp only [hP, hpid]
        unfold synced
        rw [f1, f2]
        exact h
      | some p =>
        by_cases hp : (p == 0) = true
        · simp only [hP, hpid, hp, if_true]
          unfold synced
          rw [f1, f2]
          exact h
        · simp only [hP, hpid, hp, Bool.false_eq_true, if_false]
          exact rfl

theorem stopServer_synced (st : ServerState) (h : synced st) (n : String) (wk eg : Bool) :
    synced (stopServer st n wk eg).1 := by
  unfold stopServer
  repeat' split
  all_goals first
    | exact h
    | exact synced_saveInstances _

theorem reconTick_synced (st : ServerState) (h : synced st) (alive : Nat → Bool) :
    synced (reconTick alive st) := by
  unfold reconTick
  by_cases hc : ((st.instances.map fun pr => (pr.1, tickOne alive pr.2)).any fun pr => pr.2.2) = true
  · simp only [hc, if_true]
    exact rfl
  · simp only [Bool.not_eq_true] at hc
    simp only [hc, Bool.false_eq_true, if_false]
    unfold synced
    show st.disk = _
    rw [h]
    rw [List.map_map]
    have : ∀ pr ∈ st.instances,
        ((fun pr => ((pr : String × Instance).1, pr.2)) pr) =
          ((fun pr => (pr.1, (tickOne alive pr.2).1)) ∘ fun pr => pr) pr := by
      intro pr hpr
      have hmem : ((fun pr => ((pr : String × Instance).1, tickOne alive pr.2)) pr) ∈
          st.instances.map fun pr => (pr.1, tickOne alive pr.2) := List.mem_map_of_mem _ hpr
      have hflag := (List.any_eq_false.mp hc) _ hmem
      simp only [Bool.not_eq_true] at hflag
      have := tickOne_not_changed alive pr.2 hflag
      simp [this]
    calc st.instances = st.instances.map id := by rw [List.map_id]
      _ = st.instances.map ((fun pr => (pr.1, (tickOne alive pr.2).1)) ∘ fun pr => pr) := by
        refine List.map_congr_left ?_
        intro a ha
        have := this a ha
        simpa using this
      _ = _ := by simp

/-- C7 (amended).  Registration, start, stop and the reconciliation tick
leave the on-disk snapshot equal to the in-memory map when it was equal
before (each mutating path ends in saveInstances), but the
settings-update handler — the rename/edit path — performs no save at
all: it leaves the disk unchanged while mutating the in-memory map. -/
theorem claim_C7_amended (st : ServerState) (h : synced st) :
    (∀ n w c, synced (registerInstance st n w c).1) ∧
    (∀ n pe o, synced (startServer st n pe o).1) ∧
    (∀ n wk eg, synced (stopServer st n wk eg).1) ∧
    (∀ alive, synced (reconTick alive st)) ∧
    (∀ onm n w c, (updateInstanceSettings st onm n w c).1.disk = st.disk) := by
  refine ⟨?_, ?_, ?_, ?_, ?_⟩
  · intro n w c
    unfold registerInstance
    repeat' split
    all_goals first
      | exact h
      | exact synced_saveInstances _
  · intro n pe o
    exact startServer_synced st h n pe o
  · intro n wk eg
    exact stopServer_synced st h n wk eg
  · intro alive
    exact reconTick_synced st h alive
  · intro onm n w c
    unfold updateInstanceSettings
    repeat' split
    all_goals rfl

/-- Witness for C7 (amended) at a concrete state. -/
theorem claim_C7_witness :
    synced (registerInstance runState "beta" "/srv/beta" "run.sh").1 :=
  (claim_C7_amended runState rfl).1 "beta" "/srv/beta" "run.sh"

/-- Counterexample to C7 as stated: renaming `alpha` to `beta` through
the settings-update path mutates the in-memory Registry but never calls
save, so the on-disk snapshot diverges from the in-memory map when the
handler returns. -/
theorem claim_C7_counterexample :
    synced runState ∧
    (updateInstanceSettings runState "alpha" "beta" "/srv/beta" "run.sh").1.disk ≠
      (updateInstanceSettings runState "alpha" "beta" "/srv/beta" "run.sh").1.instances :=
  ⟨rfl, by decide⟩

end MMM

/-! ### The Reconciliation Loop (claim C8) -/

namespace MMM

theorem reconTick_instances (alive : Nat → Bool) (st : ServerState) :
    (reconTick alive st).instances =
      st.instances.map fun pr => (pr.1, (tickOne alive pr.2).1) := by
  unfold reconTick
  by_cases hc : ((st.instances.map fun pr => (pr.1, tickOne alive pr.2)).any fun pr => pr.2.2)
      = true
  · simp [hc, saveInstances, List.map_map]
  · simp only [Bool.not_eq_true] at hc
    simp [hc, List.map_map]

/-- A running entry whose pid fails the liveness probe is flipped to
`stopped` with a cleared pid, and the per-entry `changed` flag is
set. -/
theorem tickOne_dead (alive : Nat → Bool) (inst : Instance) (p : Nat)
    (hrun : inst.status = "running") (hpid : inst.pid = some p)
    (hdead : alive p = false) :
    tickOne alive inst = ({ inst with status := "stopped", pid := none }, true) := by
  unfold tickOne isRunningNowJs
  rw [hpid, hrun]
  by_cases hp : (p == 0) = true
  · simp [hp, jsStrictNeqBool, jsTruthy]
  · simp [hp, hdead, jsStrictNeqBool, jsTruthy]

/-- C8.  In one reconciliation tick every Registry entry that is marked
`running` but whose pid fails the zero-signal liveness probe is
corrected to `stopped` with a null pid; and if any entry changed during
the tick, the events appended by the tick are exactly one persist
followed by one batched status notification. -/
theorem claim_C8_tick (alive : Nat → Bool) (st : ServerState) :
    (∀ n inst p, (n, inst) ∈ st.instances → inst.status = "running" →
      inst.pid = some p → alive p = false →
      (n, { inst with status := "stopped", pid := none }) ∈ (reconTick alive st).instances) ∧
    ((∃ pr ∈ st.instances, (tickOne alive pr.2).1 ≠ pr.2) →
      (reconTick alive st).events = st.events ++ [Ev.persist, Ev.emitStatus]) := by
  constructor
  · intro n inst p hmem hrun hpid hdead
    rw [reconTick_instances]
    refine List.mem_map.mpr ⟨(n, inst), hmem, ?_⟩
    simp [tickOne_dead alive inst p hrun hpid hdead]
  · rintro ⟨pr, hpr, hne⟩
    have hflag : (tickOne alive pr.2).2 = true := by
      by_cases hb : (tickOne alive pr.2).2 = true
      · exact hb
      · exact absurd (tickOne_not_changed alive pr.2 (by simpa using hb)) hne
    have hany : ((st.instances.map fun q => (q.1, tickOne alive q.2)).any fun q => q.2.2)
        = true := by
      refine List.any_eq_true.mpr ⟨(pr.1, tickOne alive pr.2), List.mem_map_of_mem _ hpr, hflag⟩
    unfold reconTick
    simp only [hany, if_true, saveInstances]
    simp

/-- Witness for C8 at a concrete state: with a probe that reports every
pid dead, the running entry `alpha` (pid 5) is corrected to `stopped`
with a null pid by one tick. -/
theorem claim_C8_witness :
    ("alpha", { runInst with status := "stopped", pid := none }) ∈
      (reconTick (fun _ => false) runState).instances :=
  (claim_C8_tick (fun _ => false) runState).1 "alpha" runInst 5 (by decide) rfl rfl rfl

end MMM

/-! ### The pid/status invariant (claim C1) -/

namespace MMM

theorem registryInv_setA (insts : List (String × Instance)) (k : String) (v : Instance)
    (h : registryInv insts) (hv : pidStatusOk v) : registryInv (setA insts k v) := by
  intro pr hpr
  rcases mem_setA insts k v pr hpr with h1 | h1
  · rw [h1]; exact hv
  · exact h pr h1

theorem killProcess_instances (st : ServerState) (pid : Nat) :
    (killProcess st pid).instances = st.instances := by
  unfold killProcess
  repeat' split
  all_goals rfl

theorem registerInstance_inv (st : ServerState) (n w c : String)
    (h : registryInv st.instances) : registryInv (registerInstance st n w c).1.instances := by
  unfold registerInstance
  repeat' split
  all_goals first
    | exact h
    | exact registryInv_setA _ _ _ h (by simp [pidStatusOk])

theorem startServer_inv (st : ServerState) (n : String) (pe : Bool) (o : SpawnOutcome)
    (h : registryInv st.instances) : registryInv (startServer st n pe o).1.instances := by
  unfold startServer
  cases hI : lookupA st.instances n with
  | none => exact h
  | some inst =>
    obtain ⟨f1, -, -, -⟩ := spawnProcess_frame st (resolvedCommand inst pe) (instArgs inst) o
    cases hP : lookupA (spawnProcess st (resolvedCommand inst pe) (instArgs inst) o).1.pm.processes
        (spawnProcess st (resolvedCommand inst pe) (instArgs inst) o).2 with
    | none =>
      simp only [hP]
      rw [f1]; exact h
    | some pi =>
      cases hpid : pi.pid with
      | none => simp only [hP, hpid]; rw [f1]; exact h
      | some p =>
        by_cases hp : (p == 0) = true
        · simp only [hP, hpid, hp, if_true]; rw [f1]; exact h
        · simp only [hP, hpid, hp, Bool.false_eq_true, if_false]
          refine registryInv_setA _ _ _ ?_ (by simp [pidStatusOk])
          rw [f1]; exact h

theorem stopServer_inv (st : ServerState) (n : String) (wk eg : Bool)
    (h : registryInv st.instances) : registryInv (stopServer st n wk eg).1.instances := by
  unfold stopServer
  repeat' split
  all_goals first
    | exact h
    | exact registryInv_setA _ _ _ h (by simp [pidStatusOk])

theorem restartServer_inv (st : ServerState) (n : String) (wk eg pe : Bool)
    (o : SpawnOutcome) (h : registryInv st.instances) :
    registryInv (restartServer st n wk eg pe o).1.instances := by
  unfold restartServer restartRun
  have h1 := stopServer_inv st n wk eg h
  cases hs : (stopServer st n wk eg).2 with
  | error e => simp only [hs]; exact h1
  | ok u =>
    cases hw : waitUntilStopped (stopServer st n wk eg).1 n with
    | error e => simp only [hs, hw]; exact h1
    | ok v => simp only [hs, hw]; exact startServer_inv _ n pe o h1

theorem terminateL_inv (st : ServerState) (n : String) (h : registryInv st.instances) :
    registryInv (terminateInstance_lifecycle st n).instances := by
  unfold terminateInstance_lifecycle
  repeat' split
  all_goals first
    | exact h
    | exact registryInv_setA _ _ _ h (by simp [pidStatusOk])
    | exact registryInv_setA _ _ _ (by rw [killProcess_instances]; exact h)
        (by simp [pidStatusOk])

theorem tickOne_pidStatusOk (alive : Nat → Bool) (inst : Instance)
    (h : pidStatusOk inst) : pidStatusOk (tickOne alive inst).1 := by
  unfold tickOne
  by_cases hb : jsStrictNeqBool (inst.status == "running") (isRunningNowJs inst.pid alive)
      = true
  · simp only [hb, if_true]
    by_cases ht : jsTruthy (isRunningNowJs inst.pid alive) = true
    · simp only [ht, if_true]
      cases hpid : inst.pid with
      | none =>
        rw [hpid] at ht
        simp [isRunningNowJs, jsTruthy] at ht
      | some p => simp [pidStatusOk]
    · simp only [Bool.not_eq_true] at ht
      simp [ht, pidStatusOk]
  · simp only [Bool.not_eq_true] at hb
    simp only [hb, Bool.false_eq_true, if_false]
    exact h

theorem reconTick_inv (alive : Nat → Bool) (st : ServerState)
    (h : registryInv st.instances) : registryInv (reconTick alive st).instances := by
  rw [reconTick_instances]
  intro pr hpr
  obtain ⟨orig, hmem, rfl⟩ := List.mem_map.mp hpr
  exact tickOne_pidStatusOk alive orig.2 (h orig hmem)

/-- C1.  Starting from a Registry in which every entry has a non-null
pid exactly when its status is `running`, the invariant still holds
after registration, after start (any gate or spawn outcome), after stop,
after restart, after either terminate variant, and after a
reconciliation tick with any liveness oracle. -/
theorem claim_C1_invariant (st : ServerState) (h : registryInv st.instances) :
    (∀ n w c, registryInv (registerInstance st n w c).1.instances) ∧
    (∀ n pe o, registryInv (startServer st n pe o).1.instances) ∧
    (∀ n wk eg, registryInv (stopServer st n wk eg).1.instances) ∧
    (∀ n wk eg pe o, registryInv (restartServer st n wk eg pe o).1.instances) ∧
    (∀ n, registryInv (terminateInstance_lifecycle st n).instances) ∧
    (∀ n, registryInv (terminateInstance_socket st n).1.instances) ∧
    (∀ alive, registryInv (reconTick alive st).instances) :=
  ⟨fun n w c => registerInstance_inv st n w c h,
   fun n pe o => startServer_inv st n pe o h,
   fun n wk eg => stopServer_inv st n wk eg h,
   fun n wk eg pe o => restartServer_inv st n wk eg pe o h,
   fun n => terminateL_inv st n h,
   fun _ => h,
   fun alive => reconTick_inv alive st h⟩

/-- Witness for C1 at a concrete state: the invariant holds after
stopping the running instance `alpha`. -/
theorem claim_C1_witness :
    registryInv (stopServer runState "alpha" true true).1.instances :=
  (claim_C1_invariant runState (by decide)).2.2.1 "alpha" true true

end MMM

/-! ### Start preconditions (claim C10) and terminate (claim C3) -/

namespace MMM

/-- C10 (amended).  Both start variants fail NotFound on an absent
instance; only the legacy variant guards against an already-tracked
process with AlreadyRunning (returning with the state unchanged, so no
process is spawned); the supervisor-based variant has no such guard. -/
theorem claim_C10_amended :
    (∀ (st : ServerState) (n : String) (pe : Bool) (o : SpawnOutcome),
      lookupA st.instances n = none →
      startServer st n pe o = (st, .error .notFound)) ∧
    (∀ (lst : LegacyState) (n : String) (q : Nat),
      lookupA lst.instances n = none →
      startServer_legacy lst n q = (lst, .error .notFound)) ∧
    (∀ (lst : LegacyState) (n : String) (q p : Nat) (inst : Instance),
      lookupA lst.instances n = some inst → lookupA lst.processes n = some p →
      startServer_legacy lst n q = (lst, .error .alreadyRunning)) := by
  refine ⟨?_, ?_, ?_⟩
  · intro st n pe o hI
    unfold startServer
    rw [hI]
  · intro lst n q hI
    unfold startServer_legacy
    rw [hI]
  · intro lst n q p inst hI hP
    unfold startServer_legacy
    rw [hI, hP]

/-- Witness for C10 (amended): concrete NotFound and AlreadyRunning
evaluations. -/
theorem claim_C10_witness :
    startServer runState "ghost" false (.ok 7) = (runState, .error .notFound) ∧
    startServer_legacy
        { instances := [("alpha", runInst)], processes := [("alpha", 5)], logs := [],
          disk := [("alpha", runInst)], livePids := [5], events := [] } "alpha" 7 =
      ({ instances := [("alpha", runInst)], processes := [("alpha", 5)], logs := [],
         disk := [("alpha", runInst)], livePids := [5], events := [] },
       .error .alreadyRunning) :=
  ⟨claim_C10_amended.1 runState "ghost" false (.ok 7) rfl,
   claim_C10_amended.2.2
     { instances := [("alpha", runInst)], processes := [("alpha", 5)], logs := [],
       disk := [("alpha", runInst)], livePids := [5], events := [] }
     "alpha" 7 5 runInst rfl rfl⟩

/-- Counterexample to C10 as stated: in the supervisor-based server,
start on the already-running instance `alpha` (pid 5 tracked by the
supervisor) does not fail AlreadyRunning — it spawns a second OS
process (pid 7 joins the live set) and overwrites the Registry pid. -/
theorem claim_C10_counterexample :
    (startServer runState "alpha" false (.ok 7)).2 = .ok 7 ∧
    (startServer runState "alpha" false (.ok 7)).1.livePids = [7, 5] ∧
    lookupA (startServer runState "alpha" false (.ok 7)).1.instances "alpha" =
      some { runInst with pid := some 7 } ∧
    (startServer runState "alpha" false (.ok 7)).2 ≠ .error .alreadyRunning := by
  refine ⟨rfl, rfl, rfl, ?_⟩
  intro hcontra
  rw [show (startServer runState "alpha" false (.ok 7)).2 = .ok 7 from rfl] at hcontra
  exact Except.noConfusion hcontra

/-- C3 (code bug).  On a concrete state with the registered running
instance `alpha` and a captured log line: the effective terminate (the
hoisting-selected socket variant) throws a ReferenceError on the
undeclared `processes` variable and mutates nothing; the shadowed
lifecycle variant keeps the Registry entry (merely marking it
`terminated`) and keeps the Log Buffer; and even the unreachable body of
the socket variant, which does delete the Registry entry, never deletes
the Log Buffer.  The claim — entry removed and Log Buffer deleted — is
met by no variant. -/
theorem claim_C3_code_bug :
    terminateInstance_socket runState "alpha" = (runState, .error .referenceError) ∧
    lookupA (terminateInstance_lifecycle runState "alpha").instances "alpha" =
      some { runInst with status := "terminated", pid := none } ∧
    logsOf (terminateInstance_lifecycle runState "alpha") "alpha" = ["line1"] ∧
    lookupA (terminateInstance_socketBody runState "alpha").instances "alpha" = none ∧
    logsOf (terminateInstance_socketBody runState "alpha") "alpha" = ["line1"] :=
  ⟨rfl, rfl, rfl, rfl, rfl⟩

end MMM

/-! ### Graceful stop (claim C5) -/

namespace MMM

/-- Computation of stopServer on its success path. -/
theorem stopServer_eq (st : ServerState) (name : String) (inst : Instance) (p : Nat)
    (f : Nat × ProcInfo) (eg : Bool)
    (hI : lookupA st.instances name = some inst)
    (hpid : inst.pid = some p) (hp : (p == 0) = false)
    (hF : st.pm.processes.find? (fun pr => pr.2.pid == some p) = some f)
    (hProc : f.2.hasProc = true) :
    stopServer st name true eg = (stopCleanupState st name inst p f.2.id eg, .ok ()) := by
  cases eg <;>
    simp [stopServer, stopCleanupState, saveInstances, hI, hpid, hp, hF, hProc]

/-- stopServer with a failing stdin write rejects without mutating
anything. -/
theorem stopServer_nowrite (st : ServerState) (name : String) (inst : Instance) (p : Nat)
    (f : Nat × ProcInfo) (eg : Bool)
    (hI : lookupA st.instances name = some inst)
    (hpid : inst.pid = some p) (hp : (p == 0) = false)
    (hF : st.pm.processes.find? (fun pr => pr.2.pid == some p) = some f)
    (hProc : f.2.hasProc = true) :
    stopServer st name false eg = (st, .error .stdinFailed) := by
  simp [stopServer, hI, hpid, hp, hF, hProc]

/-- C5.  For a running instance whose pid is tracked by a live
supervisor handle, stop writes `stop` plus a newline to the child stdin,
then either resolves on a timely exit or sends SIGKILL and resolves; on
both paths it resolves successfully with status `stopped`, a cleared
pid, the handle reaped, and the Registry persisted before returning. -/
theorem claim_C5_stop (st : ServerState) (name : String) (inst : Instance) (p : Nat)
    (f : Nat × ProcInfo) (eg : Bool)
    (hI : lookupA st.instances name = some inst)
    (hpid : inst.pid = some p) (hp : (p == 0) = false)
    (hF : st.pm.processes.find? (fun pr => pr.2.pid == some p) = some f)
    (hProc : f.2.hasProc = true)
    (hIds : (st.pm.processes.map Prod.fst).Nodup) :
    (stopServer st name true eg).2 = .ok () ∧
    lookupA (stopServer st name true eg).1.instances name =
      some { inst with status := "stopped", pid := none } ∧
    lookupA (stopServer st name true eg).1.pm.processes f.2.id = none ∧
    (stopServer st name true eg).1.disk = (stopServer st name true eg).1.instances ∧
    Ev.stdinWrite p "stop\n" ∈ (stopServer st name true eg).1.events ∧
    (eg = false → Ev.kill p "SIGKILL" ∈ (stopServer st name true eg).1.events) := by
  rw [stopServer_eq st name inst p f eg hI hpid hp hF hProc]
  refine ⟨rfl, ?_, ?_, rfl, ?_, ?_⟩
  · exact lookupA_setA_self _ _ _
  · exact lookupA_eraseA_self _ _ hIds
  · cases eg <;> simp [stopCleanupState, saveInstances]
  · intro heg
    subst heg
    simp [stopCleanupState, saveInstances]

/-- Witness for C5 at the concrete running state: stopping `alpha`
without a timely exit (grace window elapsed) sends SIGKILL, reaps the
handle, and leaves a persisted stopped entry. -/
theorem claim_C5_witness :
    (stopServer runState "alpha" true false).2 = .ok () ∧
    lookupA (stopServer runState "alpha" true false).1.instances "alpha" =
      some { runInst with status := "stopped", pid := none } ∧
    lookupA (stopServer runState "alpha" true false).1.pm.processes 1 = none ∧
    (stopServer runState "alpha" true false).1.disk =
      (stopServer runState "alpha" true false).1.instances ∧
    Ev.stdinWrite 5 "stop\n" ∈ (stopServer runState "alpha" true false).1.events ∧
    (false = false → Ev.kill 5 "SIGKILL" ∈ (stopServer runState "alpha" true false).1.events) :=
  claim_C5_stop runState "alpha" runInst 5 (1, runHandle) false rfl rfl rfl rfl rfl
    (by decide)

end MMM

/-! ### Restart ordering (claim C4) -/

namespace MMM

/-- Shape of the ProcessManager state after a successful spawn. -/
theorem spawnProcess_ok (st : ServerState) (c : String) (a : List String) (q : Nat)
    (h : isCommandWithArgsDisabled st.pm.disabledCommands c a = false) :
    (spawnProcess st c a (.ok q)).2 = st.pm.nextId ∧
    (spawnProcess st c a (.ok q)).1.pm.processes =
      setA st.pm.processes st.pm.nextId
        { id := st.pm.nextId, command := c, args := a, hasProc := true,
          pid := some q, cpu := 0, memory := 0, errors := [] } ∧
    (spawnProcess st c a (.ok q)).1.livePids = q :: st.livePids ∧
    (spawnProcess st c a (.ok q)).1.spawnedFor = st.spawnedFor := by
  simp only [spawnProcess, h, Bool.false_eq_true, if_false]
  refine ⟨?_, ?_, ?_, ?_⟩ <;> trivial

/-- Shape of the ProcessManager state after a spawn that throws. -/
theorem spawnProcess_fail (st : ServerState) (c : String) (a : List String) (msg : String)
    (h : isCommandWithArgsDisabled st.pm.disabledCommands c a = false) :
    (spawnProcess st c a (.fail msg)).2 = st.pm.nextId ∧
    (spawnProcess st c a (.fail msg)).1.pm.processes =
      setA st.pm.processes st.pm.nextId
        { id := st.pm.nextId, command := c, args := a, hasProc := false,
          pid := none, cpu := 0, memory := 0, errors := [msg, msg] } ∧
    (spawnProcess st c a (.fail msg)).1.livePids = st.livePids ∧
    (spawnProcess st c a (.fail msg)).1.spawnedFor = st.spawnedFor := by
  simp only [spawnProcess, h, Bool.false_eq_true, if_false]
  refine ⟨?_, ?_, ?_, ?_⟩ <;> trivial

/-- Every run of startServer either leaves the OS live set and the
spawn bookkeeping unchanged, or the oracle reported a fresh process
`q`, which joined the live set, with the ghost association recorded
exactly when the start succeeded. -/
theorem startServer_shape (st : ServerState) (n : String) (pe : Bool) (o : SpawnOutcome) :
    ((startServer st n pe o).1.livePids = st.livePids ∧
     (startServer st n pe o).1.spawnedFor = st.spawnedFor) ∨
    (∃ q, o = SpawnOutcome.ok q ∧
      (startServer st n pe o).1.livePids = q :: st.livePids ∧
      ((startServer st n pe o).1.spawnedFor = st.spawnedFor ∨
       (startServer st n pe o).1.spawnedFor = st.spawnedFor ++ [(q, n)])) := by
  unfold startServer
  cases hI : lookupA st.instances n with
  | none => exact Or.inl ⟨rfl, rfl⟩
  | some inst =>
    simp only []
    by_cases hgate : isCommandWithArgsDisabled st.pm.disabledCommands
        (resolvedCommand inst pe) (instArgs inst) = true
    · obtain ⟨h1, h2, h3, h4⟩ :=
        spawnProcess_disabled st (resolvedCommand inst pe) (instArgs inst) o hgate
      obtain ⟨g1, g2, g3, g4⟩ :=
        spawnProcess_frame st (resolvedCommand inst pe) (instArgs inst) o
      rw [h1, h2, lookupA_setA_self]
      exact Or.inl ⟨h3, g4⟩
    · rw [Bool.not_eq_true] at hgate
      cases o with
      | fail msg =>
        obtain ⟨h1, h2, h3, h4⟩ :=
          spawnProcess_fail st (resolvedCommand inst pe) (instArgs inst) msg hgate
        rw [h1, h2, lookupA_setA_self]
        obtain ⟨-, -, -, g4⟩ :=
          spawnProcess_frame st (resolvedCommand inst pe) (instArgs inst) (.fail msg)
        exact Or.inl ⟨h3, g4⟩
      | ok q =>
        obtain ⟨h1, h2, h3, h4⟩ :=
          spawnProcess_ok st (resolvedCommand inst pe) (instArgs inst) q hgate
        obtain ⟨-, -, -, g4⟩ :=
          spawnProcess_frame st (resolvedCommand inst pe) (instArgs inst) (.ok q)
        rw [h1, h2, lookupA_setA_self]
        by_cases hq : (q == 0) = true
        · simp only [hq, if_true]
          exact Or.inr ⟨q, rfl, h3, Or.inl g4⟩
        · simp only [hq, Bool.false_eq_true, if_false]
          refine Or.inr ⟨q, rfl, h3, Or.inr ?_⟩
          show (spawnProcess st (resolvedCommand inst pe) (instArgs inst)
              (.ok q)).1.spawnedFor ++ [(q, n)] = st.spawnedFor ++ [(q, n)]
          rw [g4]

theorem waitPoll_stopped (st2 : ServerState) (n : String) (fuel : Nat)
    (h : stoppedCheck st2 n = true) : waitPoll st2 n fuel = .ok () := by
  cases fuel <;> simp [waitPoll, h]

/-- Because the single-threaded control plane cannot change the state
between polls, a state that never shows `stopped` makes the poll reject
with the restart timeout after its fuel is spent. -/
theorem waitPoll_timeout (st2 : ServerState) (n : String) (fuel : Nat)
    (h : stoppedCheck st2 n = false) : waitPoll st2 n fuel = .error .timeout := by
  induction fuel with
  | zero => simp [waitPoll, h]
  | succ f ih => simp [waitPoll, h, ih]

theorem liveFilter_nil_of (sf : List (Nat × String)) (lp : List Nat) (name : String)
    (h : ∀ pr ∈ sf, pr.2 = name → pr.1 ∉ lp) :
    (sf.filter fun pr => pr.2 == name && lp.contains pr.1) = [] := by
  rw [List.filter_eq_nil_iff]
  intro pr hpr hcontra
  simp only [Bool.and_eq_true, beq_iff_eq] at hcontra
  obtain ⟨h2, h1⟩ := hcontra
  exact h pr hpr h2 (by simpa using h1)

/-- C4.  Starting from a state in which at most one live OS process is
associated with the instance — the running pid `p` — every state the
restart composition passes through (the entry state, the state after the
awaited stop, and the state after the subsequent start) again has at
most one live OS process for that instance; and the polling wait rejects
with Timeout whenever the Registry never shows `stopped`. -/
theorem claim_C4_restart (st : ServerState) (name : String) (inst : Instance) (p : Nat)
    (f : Nat × ProcInfo) (wk eg pe : Bool) (o : SpawnOutcome)
    (hI : lookupA st.instances name = some inst)
    (hRun : inst.status = "running")
    (hpid : inst.pid = some p) (hp : (p == 0) = false)
    (hF : st.pm.processes.find? (fun pr => pr.2.pid == some p) = some f)
    (hProc : f.2.hasProc = true)
    (hNd : st.livePids.Nodup)
    (hCnt : liveForCount st name ≤ 1)
    (hOnly : ∀ pr ∈ st.spawnedFor, pr.2 = name → pr.1 ∈ st.livePids → pr.1 = p)
    (hFresh : ∀ q, o = SpawnOutcome.ok q →
      q ∉ st.livePids ∧ ∀ pr ∈ st.spawnedFor, pr.1 ≠ q) :
    (∀ s ∈ (restartRun st name wk eg pe o).1, liveForCount s name ≤ 1) ∧
    (∀ (st2 : ServerState) (i2 : Instance), lookupA st2.instances name = some i2 →
      i2.status ≠ "stopped" → waitUntilStopped st2 name = .error .timeout) := by
  have hnotInErase : ∀ pr ∈ st.spawnedFor, pr.2 = name → pr.1 ∉ st.livePids.erase p := by
    intro pr hpr h2 hmem
    obtain ⟨hne, hmem2⟩ := (List.Nodup.mem_erase_iff hNd).mp hmem
    exact hne (hOnly pr hpr h2 hmem2)
  constructor
  · cases wk with
    | false =>
      have hstop := stopServer_nowrite st name inst p f eg hI hpid hp hF hProc
      have htr : (restartRun st name false eg pe o).1 = [st, st] := by
        simp [restartRun, hstop]
      rw [htr]
      intro s hs
      simp only [List.mem_cons, List.not_mem_nil, or_false] at hs
      rcases hs with rfl | rfl
      · exact hCnt
      · exact hCnt
    | true =>
      have hstop := stopServer_eq st name inst p f eg hI hpid hp hF hProc
      have hsc : stoppedCheck (stopCleanupState st name inst p f.2.id eg) name = true := by
        simp [stoppedCheck, stopCleanupState, saveInstances, lookupA_setA_self]
      have hwait : waitUntilStopped (stopCleanupState st name inst p f.2.id eg) name
          = .ok () := waitPoll_stopped _ _ _ hsc
      have htr : (restartRun st name true eg pe o).1 =
          [st, stopCleanupState st name inst p f.2.id eg,
           (startServer (stopCleanupState st name inst p f.2.id eg) name pe o).1] := by
        simp [restartRun, hstop, hwait]
      have hclp : (stopCleanupState st name inst p f.2.id eg).livePids =
          st.livePids.erase p := rfl
      have hcsf : (stopCleanupState st name inst p f.2.id eg).spawnedFor =
          st.spawnedFor := rfl
      rw [htr]
      intro s hs
      simp only [List.mem_cons, List.not_mem_nil, or_false] at hs
      rcases hs with rfl | rfl | rfl
      · exact hCnt
      · unfold liveForCount
        rw [hclp, hcsf, liveFilter_nil_of st.spawnedFor (st.livePids.erase p) name
          hnotInErase]
        simp
      · rcases startServer_shape (stopCleanupState st name inst p f.2.id eg) name pe o with
          ⟨hl, hsf⟩ | ⟨q, hq, hl, hsf⟩
        · unfold liveForCount
          rw [hl, hsf, hclp, hcsf, liveFilter_nil_of st.spawnedFor (st.livePids.erase p)
            name hnotInErase]
          simp
        · obtain ⟨hqlp, hqsf⟩ := hFresh q hq
          have hnotq : ∀ pr ∈ st.spawnedFor, pr.2 = name →
              pr.1 ∉ q :: st.livePids.erase p := by
            intro pr hpr h2 hmem
            rcases List.mem_cons.mp hmem with h3 | h3
            · exact hqsf pr hpr h3
            · exact hnotInErase pr hpr h2 h3
          rcases hsf with hsf | hsf
          · unfold liveForCount
            rw [hl, hsf, hclp, hcsf,
              liveFilter_nil_of st.spawnedFor (q :: st.livePids.erase p) name hnotq]
            simp
          · unfold liveForCount
            rw [hl, hsf, hclp, hcsf, List.filter_append,
              liveFilter_nil_of st.spawnedFor (q :: st.livePids.erase p) name hnotq]
            simp
  · intro st2 i2 hl2 hne
    have hsc2 : stoppedCheck st2 name = false := by
      unfold stoppedCheck
      rw [hl2]
      simp [hne]
    exact waitPoll_timeout st2 name 19 hsc2

/-- Witness for C4 at the concrete running state: the state in which the
restart composition finishes (after stop, successful poll, and a fresh
spawn with pid 7) again has at most one live process for `alpha`. -/
theorem claim_C4_witness :
    liveForCount (restartRun runState "alpha" true true true (.ok 7)).2.1 "alpha" ≤ 1 :=
  (claim_C4_restart runState "alpha" runInst 5 (1, runHandle) true true true (.ok 7)
      rfl rfl rfl rfl rfl rfl (by decide) (by decide) (by decide)
      (fun q hq => by cases hq; exact ⟨by decide, by decide⟩)).1
    _ (by decide)

end MMM
